import Mathlib

/-!
Verification of the allocation engine `autoAllocate` of
`src/src/App.tsx` (global-invest-simulator).

Shallow embedding conventions:
* JavaScript numbers are modelled as rationals (`ℚ`); all the arithmetic the
  engine performs on the weight table is exact on the inputs it receives, so
  the rational model tracks the source computation step for step.
* The source field `regionSplit : string` (for example "60|40") is consumed
  only through `regionSplit.split("|").map(parseFloat)`; it is modelled as the
  parsed pair of fields `usaPct`, `indPct`.
* The display-only fields `currency` and `rebalFreq` are never read by
  `autoAllocate` and are omitted from the record.
* `s.name.includes("Midcap")` is modelled as the list-infix test on the
  underlying character lists.
-/

/-- The `Risk` union type of the source (`"Moderate-Aggressive"` becomes
`ModerateAggressive`). -/
inductive Risk where
  | Conservative
  | Moderate
  | ModerateAggressive
  | Aggressive
  deriving DecidableEq

/-- The `Inputs` interface of the source, with `regionSplit` already parsed
into the pair `(usaPct, indPct)` and the display-only enums dropped. -/
structure Inputs where
  budget : ℚ
  horizon : ℚ
  risk : Risk
  usaPct : ℚ
  indPct : ℚ
  includeGold : Bool
  includeCrypto : Bool
  cryptoCapPct : ℚ

/-- The six category weights the engine mutates (`base` in the source). -/
structure Weights where
  equity : ℚ
  fixed : ℚ
  gold : ℚ
  reits : ℚ
  cash : ℚ
  crypto : ℚ
  deriving DecidableEq

/-- The `profiles` table of `autoAllocate` (App.tsx lines 37-42). -/
def profiles : Risk → Weights
  | .Conservative => { equity := 35, fixed := 45, gold := 12, reits := 4, cash := 4, crypto := 0 }
  | .Moderate => { equity := 60, fixed := 25, gold := 8, reits := 5, cash := 2, crypto := 0 }
  | .ModerateAggressive =>
      { equity := 70, fixed := 15, gold := 7, reits := 5, cash := 1, crypto := 2 }
  | .Aggressive => { equity := 80, fixed := 8, gold := 5, reits := 5, cash := 0, crypto := 2 }

/-- Horizon tilt (App.tsx lines 45-46): `if (i.horizon >= 10) ... else if
(i.horizon <= 3) ...`. -/
def horizonTilt (horizon : ℚ) (w : Weights) : Weights :=
  if 10 ≤ horizon then { w with equity := w.equity + 5, fixed := w.fixed - 5 }
  else if horizon ≤ 3 then { w with equity := w.equity - 10, fixed := w.fixed + 10 }
  else w

/-- Gold opt-out (App.tsx line 48): `if (!i.includeGold) { base.fixed +=
base.gold; base.gold = 0; }`. -/
def goldOptOut (includeGold : Bool) (w : Weights) : Weights :=
  if includeGold then w else { w with fixed := w.fixed + w.gold, gold := 0 }

/-- Crypto opt-out (App.tsx line 49): `if (!i.includeCrypto) { base.equity +=
base.crypto; base.crypto = 0; }`. -/
def cryptoOptOut (includeCrypto : Bool) (w : Weights) : Weights :=
  if includeCrypto then w else { w with equity := w.equity + w.crypto, crypto := 0 }

/-- Crypto cap clamp (App.tsx lines 50-53): the excess over the cap moves to
equity and crypto is set to the cap. -/
def cryptoCap (includeCrypto : Bool) (cap : ℚ) (w : Weights) : Weights :=
  if includeCrypto ∧ cap < w.crypto then
    { w with equity := w.equity + (w.crypto - cap), crypto := cap }
  else w

/-- The divisor of App.tsx line 55: `base.equity + base.fixed + base.gold +
base.reits + base.cash + (base.crypto || 0)` (`x || 0` is `x` for every
number that is not `0` or `NaN`, and `0` otherwise, so on rationals it is
the identity). -/
def sumW (w : Weights) : ℚ :=
  w.equity + w.fixed + w.gold + w.reits + w.cash + w.crypto

/-- Normalization (App.tsx line 56): `base[k] = (base[k] / sum) * 100`.
Named `normalizeW` because Mathlib already declares `normalize`. -/
def normalizeW (w : Weights) : Weights :=
  { equity := w.equity / sumW w * 100
    fixed := w.fixed / sumW w * 100
    gold := w.gold / sumW w * 100
    reits := w.reits / sumW w * 100
    cash := w.cash / sumW w * 100
    crypto := w.crypto / sumW w * 100 }

/-- The weight record after the four in-place adjustment steps of
App.tsx lines 44-53, before normalization. -/
def finalBase (i : Inputs) : Weights :=
  cryptoCap i.includeCrypto i.cryptoCapPct
    (cryptoOptOut i.includeCrypto
      (goldOptOut i.includeGold
        (horizonTilt i.horizon (profiles i.risk))))

/-- The weight record after normalization (the state of `base` at
App.tsx line 58). -/
def normBase (i : Inputs) : Weights := normalizeW (finalBase i)

/-- One entry of the sector-tilt tables (App.tsx lines 60-73). -/
structure Sector where
  name : String
  pct : ℚ
  instr : String
  deriving DecidableEq

/-- `sectorTiltUSA` (App.tsx lines 60-66). -/
def sectorTiltUSA : List Sector :=
  [{ name := "Broad Market", pct := 55, instr := "S&P 500 ETF (VOO)" },
   { name := "Technology/AI", pct := 20, instr := "Nasdaq 100 (QQQ)" },
   { name := "Healthcare", pct := 10, instr := "Healthcare ETF (XLV)" },
   { name := "Energy", pct := 8, instr := "Energy ETF (XLE)" },
   { name := "Industrials", pct := 7, instr := "Industrials ETF (XLI)" }]

/-- `sectorTiltIND` (App.tsx lines 67-73). -/
def sectorTiltIND : List Sector :=
  [{ name := "Broad Market", pct := 55, instr := "Nifty 50 ETF" },
   { name := "Midcap Growth", pct := 20, instr := "Nifty Midcap 150" },
   { name := "Financials", pct := 10, instr := "Bank Nifty ETF" },
   { name := "Manufacturing/Infra", pct := 10, instr := "CPSE/Infra ETF" },
   { name := "Export-Tech", pct := 5, instr := "IT Services ETF" }]

/-- The `AllocationRow` interface of the source; the pair `expCagr` is split
into its two components. -/
structure AllocationRow where
  assetClass : String
  instrument : String
  country : String
  pct : ℚ
  expCagrLow : ℚ
  expCagrHigh : ℚ
  risk : String
  rationale : String
  deriving DecidableEq

/-- `equityUSA` (App.tsx line 86). -/
def equityUSA (i : Inputs) : ℚ := (normBase i).equity * i.usaPct / 100

/-- `equityIND` (App.tsx line 87). -/
def equityIND (i : Inputs) : ℚ := (normBase i).equity * i.indPct / 100

/-- `fixedUSA` (App.tsx line 102). -/
def fixedUSA (i : Inputs) : ℚ := (normBase i).fixed * i.usaPct / 100

/-- `fixedIND` (App.tsx line 103). -/
def fixedIND (i : Inputs) : ℚ := (normBase i).fixed * i.indPct / 100

/-- `goldUSA` (App.tsx line 108). -/
def goldUSA (i : Inputs) : ℚ := (normBase i).gold * i.usaPct / 100

/-- `goldIND` (App.tsx line 109). -/
def goldIND (i : Inputs) : ℚ := (normBase i).gold * i.indPct / 100

/-- `reitsUSA` (App.tsx line 114). -/
def reitsUSA (i : Inputs) : ℚ := (normBase i).reits * i.usaPct / 100

/-- `reitsIND` (App.tsx line 115). -/
def reitsIND (i : Inputs) : ℚ := (normBase i).reits * i.indPct / 100

/-- `cashUSA` (App.tsx line 119). -/
def cashUSA (i : Inputs) : ℚ := (normBase i).cash * i.usaPct / 100

/-- `cashIND` (App.tsx line 120). -/
def cashIND (i : Inputs) : ℚ := (normBase i).cash * i.indPct / 100

/-- One USA equity sector row (App.tsx lines 89-94). -/
def usaEquityRow (i : Inputs) (s : Sector) : AllocationRow :=
  { assetClass := "Equity", instrument := s.instr, country := "USA",
    pct := equityUSA i * s.pct / 100,
    expCagrLow := if s.name = "Technology/AI" then 9 else 7,
    expCagrHigh := if s.name = "Technology/AI" then 12 else 10,
    risk := if s.name = "Technology/AI" then "High" else "Medium",
    rationale := "Sector tilt: " ++ s.name }

/-- One India equity sector row (App.tsx lines 95-100). -/
def indEquityRow (i : Inputs) (s : Sector) : AllocationRow :=
  { assetClass := "Equity", instrument := s.instr, country := "India",
    pct := equityIND i * s.pct / 100,
    expCagrLow := if "Midcap".toList <:+: s.name.toList then 11 else 8,
    expCagrHigh := if "Midcap".toList <:+: s.name.toList then 14 else 12,
    risk := if "Midcap".toList <:+: s.name.toList then "High" else "Medium",
    rationale := "Sector tilt: " ++ s.name }

/-- The USA fixed-income row (App.tsx line 104). -/
def rowFixedUSA (i : Inputs) : AllocationRow :=
  { assetClass := "Fixed Income", instrument := "UST Bills/Notes Ladder (T-Bills, 2-5y Notes)",
    country := "USA", pct := fixedUSA i, expCagrLow := 3.5, expCagrHigh := 5,
    risk := "Low", rationale := "Income & drawdown buffer" }

/-- The India fixed-income row (App.tsx line 105). -/
def rowFixedIND (i : Inputs) : AllocationRow :=
  { assetClass := "Fixed Income", instrument := "India G-Secs/SDL Ladder (T-Bills, 5-10y)",
    country := "India", pct := fixedIND i, expCagrLow := 6, expCagrHigh := 7.5,
    risk := "Low", rationale := "Carry + rate diversification" }

/-- The global gold row (App.tsx line 110). -/
def rowGoldUSA (i : Inputs) : AllocationRow :=
  { assetClass := "Commodity", instrument := "Gold ETF (GLD/IAU)", country := "Global",
    pct := goldUSA i, expCagrLow := 4.5, expCagrHigh := 6,
    risk := "Low", rationale := "Inflation & crisis hedge" }

/-- The India gold row (App.tsx line 111). -/
def rowGoldIND (i : Inputs) : AllocationRow :=
  { assetClass := "Commodity", instrument := "India Gold ETF/SGB", country := "India",
    pct := goldIND i, expCagrLow := 4.5, expCagrHigh := 6,
    risk := "Low", rationale := "Local currency hedge" }

/-- The USA REIT row (App.tsx line 116). -/
def rowReitsUSA (i : Inputs) : AllocationRow :=
  { assetClass := "REITs", instrument := "U.S. REIT ETF (VNQ)", country := "USA",
    pct := reitsUSA i, expCagrLow := 5, expCagrHigh := 7,
    risk := "Medium", rationale := "Income + diversification" }

/-- The India REIT row (App.tsx line 117). -/
def rowReitsIND (i : Inputs) : AllocationRow :=
  { assetClass := "REITs", instrument := "India REIT/InvIT", country := "India",
    pct := reitsIND i, expCagrLow := 6, expCagrHigh := 8,
    risk := "Medium", rationale := "Infra & real-asset exposure" }

/-- The USA cash row (App.tsx line 121). -/
def rowCashUSA (i : Inputs) : AllocationRow :=
  { assetClass := "Cash", instrument := "USD MMF / T-Bill ETF (BIL/SGOV)", country := "USA",
    pct := cashUSA i, expCagrLow := 3, expCagrHigh := 4,
    risk := "Low", rationale := "Dry powder for dips" }

/-- The India cash row (App.tsx line 122). -/
def rowCashIND (i : Inputs) : AllocationRow :=
  { assetClass := "Cash", instrument := "INR Liquid Fund / T-Bill", country := "India",
    pct := cashIND i, expCagrLow := 5, expCagrHigh := 6,
    risk := "Low", rationale := "Liquidity buffer" }

/-- The global crypto row (App.tsx lines 124-127). -/
def rowCrypto (i : Inputs) : AllocationRow :=
  { assetClass := "Crypto", instrument := "BTC/ETH Spot ETF Blend", country := "Global",
    pct := (normBase i).crypto, expCagrLow := 12, expCagrHigh := 20,
    risk := "Very High", rationale := "Speculative convexity with cap" }

/-- The `rows` list built by the pushes of App.tsx lines 75-127; a push
guarded by `if (x > 0)` becomes a conditional singleton. -/
def rows (i : Inputs) : List AllocationRow :=
  sectorTiltUSA.map (usaEquityRow i) ++
  sectorTiltIND.map (indEquityRow i) ++
  (if 0 < fixedUSA i then [rowFixedUSA i] else []) ++
  (if 0 < fixedIND i then [rowFixedIND i] else []) ++
  (if 0 < (normBase i).gold then
    (if 0 < goldUSA i then [rowGoldUSA i] else []) ++
    (if 0 < goldIND i then [rowGoldIND i] else [])
   else []) ++
  (if 0 < reitsUSA i then [rowReitsUSA i] else []) ++
  (if 0 < reitsIND i then [rowReitsIND i] else []) ++
  (if 0 < cashUSA i then [rowCashUSA i] else []) ++
  (if 0 < cashIND i then [rowCashIND i] else []) ++
  (if i.includeCrypto ∧ 0 < (normBase i).crypto then [rowCrypto i] else [])

/-- The accumulator `tiny` of App.tsx lines 130-131: the total `pct` of the
rows below the 0.4 threshold. -/
def tinySum (l : List AllocationRow) : ℚ :=
  ((l.filter (fun r => decide (r.pct < 0.4))).map (fun r => r.pct)).sum

/-- The synthetic consolidated row of App.tsx line 132. -/
def consolidatedRow (tiny : ℚ) : AllocationRow :=
  { assetClass := "Cash", instrument := "Consolidated", country := "Global",
    pct := tiny, expCagrLow := 0, expCagrHigh := 0, risk := "Low",
    rationale := "Rounded tiny slices" }

/-- The `cleaned` accumulator of App.tsx line 131: the rows whose `pct` is
not below the 0.4 threshold, in order. -/
def cleanedRows (l : List AllocationRow) : List AllocationRow :=
  l.filter (fun r => !decide (r.pct < 0.4))

/-- The `cleaned` list as of App.tsx line 133: rows at or above the 0.4
threshold, plus one consolidated row when the removed total is positive. -/
def consolidate (l : List AllocationRow) : List AllocationRow :=
  if 0 < tinySum l then cleanedRows l ++ [consolidatedRow (tinySum l)] else cleanedRows l

/-- `autoAllocate` (App.tsx lines 36-136): build the rows, consolidate the
tiny slices, and sort descending by `pct` (`cleaned.sort((a, b) => b.pct -
a.pct)`). -/
def autoAllocate (i : Inputs) : List AllocationRow :=
  (consolidate (rows i)).mergeSort (fun a b => decide (b.pct ≤ a.pct))

/-- A valid preferences record in the sense of the data model of the spec:
the region split is a pair of percentages summing to 100, the horizon lies in
[1, 30] and the crypto cap in [0, 10] (the caller clamps both). -/
def Valid (i : Inputs) : Prop :=
  0 ≤ i.usaPct ∧ 0 ≤ i.indPct ∧ i.usaPct + i.indPct = 100 ∧
  1 ≤ i.horizon ∧ i.horizon ≤ 30 ∧ 0 ≤ i.cryptoCapPct ∧ i.cryptoCapPct ≤ 10

/-- The total `pct` of a list of allocation rows. -/
def sumPct (l : List AllocationRow) : ℚ := (l.map (fun r => r.pct)).sum

/-- All six category weights are non-negative. -/
def NonnegW (w : Weights) : Prop :=
  0 ≤ w.equity ∧ 0 ≤ w.fixed ∧ 0 ≤ w.gold ∧ 0 ≤ w.reits ∧ 0 ≤ w.cash ∧ 0 ≤ w.crypto

theorem sumW_profiles (r : Risk) : sumW (profiles r) = 100 := by
  cases r <;> norm_num [profiles, sumW]

theorem sumW_horizonTilt (h : ℚ) (w : Weights) : sumW (horizonTilt h w) = sumW w := by
  unfold horizonTilt sumW
  split_ifs <;> simp <;> ring

theorem sumW_goldOptOut (b : Bool) (w : Weights) : sumW (goldOptOut b w) = sumW w := by
  unfold goldOptOut sumW
  split_ifs <;> simp <;> ring

theorem sumW_cryptoOptOut (b : Bool) (w : Weights) : sumW (cryptoOptOut b w) = sumW w := by
  unfold cryptoOptOut sumW
  split_ifs <;> simp <;> ring

theorem sumW_cryptoCap (b : Bool) (cap : ℚ) (w : Weights) : sumW (cryptoCap b cap w) = sumW w := by
  unfold cryptoCap sumW
  split_ifs <;> simp <;> ring

theorem sumW_finalBase (i : Inputs) : sumW (finalBase i) = 100 := by
  unfold finalBase
  rw [sumW_cryptoCap, sumW_cryptoOptOut, sumW_goldOptOut, sumW_horizonTilt, sumW_profiles]

theorem normalizeW_of_sum_100 (w : Weights) (h : sumW w = 100) : normalizeW w = w := by
  have h100 : (100 : ℚ) ≠ 0 := by norm_num
  unfold normalizeW
  rw [h]
  cases w
  simp [div_mul_cancel₀ _ h100]

/-- The normalization of App.tsx line 56 is the identity: the divisor is
always exactly 100. -/
theorem normBase_eq (i : Inputs) : normBase i = finalBase i :=
  normalizeW_of_sum_100 _ (sumW_finalBase i)

theorem nonnegW_horizonTilt_profiles (r : Risk) (h : ℚ) :
    NonnegW (horizonTilt h (profiles r)) := by
  cases r <;> unfold horizonTilt profiles NonnegW <;> split_ifs <;> norm_num

theorem nonnegW_goldOptOut (b : Bool) {w : Weights} (hw : NonnegW w) :
    NonnegW (goldOptOut b w) := by
  obtain ⟨h1, h2, h3, h4, h5, h6⟩ := hw
  unfold goldOptOut NonnegW
  split_ifs
  · exact ⟨h1, h2, h3, h4, h5, h6⟩
  · exact ⟨h1, add_nonneg h2 h3, le_rfl, h4, h5, h6⟩

theorem nonnegW_cryptoOptOut (b : Bool) {w : Weights} (hw : NonnegW w) :
    NonnegW (cryptoOptOut b w) := by
  obtain ⟨h1, h2, h3, h4, h5, h6⟩ := hw
  unfold cryptoOptOut NonnegW
  split_ifs
  · exact ⟨h1, h2, h3, h4, h5, h6⟩
  · exact ⟨add_nonneg h1 h6, h2, h3, h4, h5, le_rfl⟩

theorem nonnegW_cryptoCap (b : Bool) {cap : ℚ} (hcap : 0 ≤ cap) {w : Weights}
    (hw : NonnegW w) : NonnegW (cryptoCap b cap w) := by
  obtain ⟨h1, h2, h3, h4, h5, h6⟩ := hw
  unfold cryptoCap NonnegW
  split_ifs with h
  · exact ⟨show (0:ℚ) ≤ w.equity + (w.crypto - cap) by linarith [h.2], h2, h3, h4, h5, hcap⟩
  · exact ⟨h1, h2, h3, h4, h5, h6⟩

theorem nonnegW_finalBase (i : Inputs) (hcap : 0 ≤ i.cryptoCapPct) :
    NonnegW (finalBase i) := by
  unfold finalBase
  exact nonnegW_cryptoCap _ hcap
    (nonnegW_cryptoOptOut _ (nonnegW_goldOptOut _ (nonnegW_horizonTilt_profiles _ _)))

theorem crypto_horizonTilt (h : ℚ) (w : Weights) : (horizonTilt h w).crypto = w.crypto := by
  unfold horizonTilt
  split_ifs <;> rfl

theorem crypto_goldOptOut (b : Bool) (w : Weights) : (goldOptOut b w).crypto = w.crypto := by
  unfold goldOptOut
  split_ifs <;> rfl

theorem gold_cryptoOptOut (b : Bool) (w : Weights) : (cryptoOptOut b w).gold = w.gold := by
  unfold cryptoOptOut
  split_ifs <;> rfl

theorem gold_cryptoCap (b : Bool) (cap : ℚ) (w : Weights) : (cryptoCap b cap w).gold = w.gold := by
  unfold cryptoCap
  split_ifs <;> rfl

/-- With crypto included, the clamp of lines 50-53 leaves the crypto weight at
or below the cap. -/
theorem crypto_finalBase_le_cap (i : Inputs) (hc : i.includeCrypto = true) :
    (finalBase i).crypto ≤ i.cryptoCapPct := by
  unfold finalBase cryptoCap
  split_ifs with h
  · exact le_rfl
  · push_neg at h
    exact h hc

/-- With crypto excluded, line 49 zeroes the crypto weight and the clamp is
skipped. -/
theorem crypto_finalBase_of_not_include (i : Inputs) (hc : i.includeCrypto = false) :
    (finalBase i).crypto = 0 := by
  unfold finalBase cryptoCap cryptoOptOut
  simp [hc]

/-- With gold excluded, line 48 zeroes the gold weight and the later steps do
not touch it. -/
theorem gold_finalBase_of_not_include (i : Inputs) (hg : i.includeGold = false) :
    (finalBase i).gold = 0 := by
  unfold finalBase
  rw [gold_cryptoCap, gold_cryptoOptOut]
  unfold goldOptOut
  simp [hg]

/-- A profile with zero base crypto weight keeps zero crypto weight through
all the adjustment steps (the clamp only ever lowers crypto to the cap). -/
theorem crypto_finalBase_zero_profile (i : Inputs) (hcap : 0 ≤ i.cryptoCapPct)
    (hp : (profiles i.risk).crypto = 0) : (finalBase i).crypto = 0 := by
  unfold finalBase
  have h0 : (cryptoOptOut i.includeCrypto
      (goldOptOut i.includeGold (horizonTilt i.horizon (profiles i.risk)))).crypto = 0 := by
    unfold cryptoOptOut
    split_ifs <;> simp [crypto_goldOptOut, crypto_horizonTilt, hp]
  unfold cryptoCap
  split_ifs with h
  · exact absurd h.2 (by rw [h0]; exact not_lt.mpr hcap)
  · exact h0

theorem mem_ite_nil {α : Type} {c : Prop} [Decidable c] {l : List α} {a : α} :
    a ∈ (if c then l else []) ↔ c ∧ a ∈ l := by
  split_ifs with h <;> simp [h]

/-- Membership in the raw `rows` list, case by case: every row is one of the
eleven pushes, with the guard of its push satisfied. -/
theorem mem_rows_elim {i : Inputs} {r : AllocationRow} (h : r ∈ rows i) :
    (((((((((∃ s ∈ sectorTiltUSA, usaEquityRow i s = r) ∨
      (∃ s ∈ sectorTiltIND, indEquityRow i s = r)) ∨
      (0 < fixedUSA i ∧ r = rowFixedUSA i)) ∨
      (0 < fixedIND i ∧ r = rowFixedIND i)) ∨
      (0 < (normBase i).gold ∧
        ((0 < goldUSA i ∧ r = rowGoldUSA i) ∨ (0 < goldIND i ∧ r = rowGoldIND i)))) ∨
      (0 < reitsUSA i ∧ r = rowReitsUSA i)) ∨
      (0 < reitsIND i ∧ r = rowReitsIND i)) ∨
      (0 < cashUSA i ∧ r = rowCashUSA i)) ∨
      (0 < cashIND i ∧ r = rowCashIND i)) ∨
      ((i.includeCrypto = true ∧ 0 < (normBase i).crypto) ∧ r = rowCrypto i) := by
  unfold rows at h
  simp only [List.mem_append, List.mem_map, mem_ite_nil, List.mem_singleton] at h
  exact h

theorem share_nonneg {x p : ℚ} (hx : 0 ≤ x) (hp : 0 ≤ p) : 0 ≤ x * p / 100 :=
  div_nonneg (mul_nonneg hx hp) (by norm_num)

theorem sectorUSA_pct_nonneg {s : Sector} (hs : s ∈ sectorTiltUSA) : 0 ≤ s.pct := by
  fin_cases hs <;> norm_num

theorem sectorIND_pct_nonneg {s : Sector} (hs : s ∈ sectorTiltIND) : 0 ≤ s.pct := by
  fin_cases hs <;> norm_num

/-- For a valid preferences record every raw row has a non-negative `pct`. -/
theorem rows_pct_nonneg (i : Inputs) (hv : Valid i) : ∀ r ∈ rows i, 0 ≤ r.pct := by
  obtain ⟨hu, hind, hsum, _, _, hcap, _⟩ := hv
  have hb := nonnegW_finalBase i hcap
  rw [← normBase_eq i] at hb
  obtain ⟨he, hf, hg, hrt, hc, hk⟩ := hb
  intro r hr
  rcases mem_rows_elim hr with ((((((((h|h)|h)|h)|h)|h)|h)|h)|h)|h
  · obtain ⟨s, hs, heq⟩ := h
    subst heq
    exact share_nonneg (share_nonneg he hu) (sectorUSA_pct_nonneg hs)
  · obtain ⟨s, hs, heq⟩ := h
    subst heq
    exact share_nonneg (share_nonneg he hind) (sectorIND_pct_nonneg hs)
  · rw [h.2]; exact le_of_lt h.1
  · rw [h.2]; exact le_of_lt h.1
  · rcases h.2 with h' | h' <;> (rw [h'.2]; exact le_of_lt h'.1)
  · rw [h.2]; exact le_of_lt h.1
  · rw [h.2]; exact le_of_lt h.1
  · rw [h.2]; exact le_of_lt h.1
  · rw [h.2]; exact le_of_lt h.1
  · rw [h.2]; exact le_of_lt h.1.2

/-- No raw row carries the instrument name of the synthetic consolidated
row. -/
theorem rows_instrument_ne (i : Inputs) : ∀ r ∈ rows i, r.instrument ≠ "Consolidated" := by
  intro r hr
  rcases mem_rows_elim hr with ((((((((h|h)|h)|h)|h)|h)|h)|h)|h)|h
  · obtain ⟨s, hs, heq⟩ := h
    subst heq
    fin_cases hs <;> simp [usaEquityRow]
  · obtain ⟨s, hs, heq⟩ := h
    subst heq
    fin_cases hs <;> simp [indEquityRow]
  · rw [h.2]; simp [rowFixedUSA]
  · rw [h.2]; simp [rowFixedIND]
  · rcases h.2 with h' | h'
    · rw [h'.2]; simp [rowGoldUSA]
    · rw [h'.2]; simp [rowGoldIND]
  · rw [h.2]; simp [rowReitsUSA]
  · rw [h.2]; simp [rowReitsIND]
  · rw [h.2]; simp [rowCashUSA]
  · rw [h.2]; simp [rowCashIND]
  · rw [h.2]; simp [rowCrypto]

/-- A raw row tagged `Crypto` comes from the single crypto push: crypto is
included, its `pct` is the normalized crypto weight, and that weight is
positive. -/
theorem rows_crypto_facts (i : Inputs) : ∀ r ∈ rows i, r.assetClass = "Crypto" →
    i.includeCrypto = true ∧ r.pct = (normBase i).crypto ∧ 0 < (normBase i).crypto := by
  intro r hr hcls
  rcases mem_rows_elim hr with ((((((((h|h)|h)|h)|h)|h)|h)|h)|h)|h
  · obtain ⟨s, hs, heq⟩ := h
    subst heq
    simp [usaEquityRow] at hcls
  · obtain ⟨s, hs, heq⟩ := h
    subst heq
    simp [indEquityRow] at hcls
  · rw [h.2] at hcls; simp [rowFixedUSA] at hcls
  · rw [h.2] at hcls; simp [rowFixedIND] at hcls
  · rcases h.2 with h' | h'
    · rw [h'.2] at hcls; simp [rowGoldUSA] at hcls
    · rw [h'.2] at hcls; simp [rowGoldIND] at hcls
  · rw [h.2] at hcls; simp [rowReitsUSA] at hcls
  · rw [h.2] at hcls; simp [rowReitsIND] at hcls
  · rw [h.2] at hcls; simp [rowCashUSA] at hcls
  · rw [h.2] at hcls; simp [rowCashIND] at hcls
  · exact ⟨h.1.1, by rw [h.2]; rfl, h.1.2⟩

/-- A raw row tagged `Commodity` exists only when the normalized gold weight
is positive. -/
theorem rows_commodity_facts (i : Inputs) : ∀ r ∈ rows i, r.assetClass = "Commodity" →
    0 < (normBase i).gold := by
  intro r hr hcls
  rcases mem_rows_elim hr with ((((((((h|h)|h)|h)|h)|h)|h)|h)|h)|h
  · obtain ⟨s, hs, heq⟩ := h
    subst heq
    simp [usaEquityRow] at hcls
  · obtain ⟨s, hs, heq⟩ := h
    subst heq
    simp [indEquityRow] at hcls
  · rw [h.2] at hcls; simp [rowFixedUSA] at hcls
  · rw [h.2] at hcls; simp [rowFixedIND] at hcls
  · exact h.1
  · rw [h.2] at hcls; simp [rowReitsUSA] at hcls
  · rw [h.2] at hcls; simp [rowReitsIND] at hcls
  · rw [h.2] at hcls; simp [rowCashUSA] at hcls
  · rw [h.2] at hcls; simp [rowCashIND] at hcls
  · rw [h.2] at hcls; simp [rowCrypto] at hcls

/-- Membership in the sorted output is membership in the consolidated list. -/
theorem mem_autoAllocate {i : Inputs} {r : AllocationRow} :
    r ∈ autoAllocate i ↔ r ∈ consolidate (rows i) := by
  unfold autoAllocate
  exact List.mem_mergeSort

/-- Membership in the consolidated list, case by case. -/
theorem mem_consolidate {l : List AllocationRow} {r : AllocationRow}
    (h : r ∈ consolidate l) :
    (r ∈ l ∧ ¬ r.pct < 0.4) ∨ (0 < tinySum l ∧ r = consolidatedRow (tinySum l)) := by
  unfold consolidate at h
  split_ifs at h with ht
  · rcases List.mem_append.mp h with h2 | h2
    · have h3 := List.mem_filter.mp h2
      exact Or.inl ⟨h3.1, by simpa using h3.2⟩
    · exact Or.inr ⟨ht, by simpa using h2⟩
  · have h3 := List.mem_filter.mp h
    exact Or.inl ⟨h3.1, by simpa using h3.2⟩

theorem sumPct_append (l₁ l₂ : List AllocationRow) :
    sumPct (l₁ ++ l₂) = sumPct l₁ + sumPct l₂ := by
  simp [sumPct]

theorem sumPct_ite {c : Prop} [Decidable c] (l : List AllocationRow) :
    sumPct (if c then l else []) = if c then sumPct l else 0 := by
  split_ifs <;> simp [sumPct]

theorem ite_pos_self {x : ℚ} (h : 0 ≤ x) : (if 0 < x then x else 0) = x := by
  split_ifs with hx
  · rfl
  · rw [le_antisymm (not_lt.mp hx) h]

theorem share_split (i : Inputs) (hsum : i.usaPct + i.indPct = 100) (x : ℚ) :
    x * i.usaPct / 100 + x * i.indPct / 100 = x := by
  rw [div_add_div_same, ← mul_add, hsum, mul_div_assoc]
  norm_num

theorem sumPct_usaEquity (i : Inputs) :
    sumPct (sectorTiltUSA.map (usaEquityRow i)) = equityUSA i := by
  simp [sumPct, sectorTiltUSA, usaEquityRow]
  ring

theorem sumPct_indEquity (i : Inputs) :
    sumPct (sectorTiltIND.map (indEquityRow i)) = equityIND i := by
  simp [sumPct, sectorTiltIND, indEquityRow]
  ring

/-- The raw rows of App.tsx lines 75-127 carry the whole normalized weight:
their `pct` values sum to exactly 100 for valid preferences. -/
theorem sumPct_rows (i : Inputs) (hv : Valid i) : sumPct (rows i) = 100 := by
  obtain ⟨hu, hind, hsum, _, _, hcap, _⟩ := hv
  have hb := nonnegW_finalBase i hcap
  rw [← normBase_eq i] at hb
  obtain ⟨he, hf, hg, hrt, hc, hk⟩ := hb
  have hfU : 0 ≤ fixedUSA i := share_nonneg hf hu
  have hfI : 0 ≤ fixedIND i := share_nonneg hf hind
  have hgU : 0 ≤ goldUSA i := share_nonneg hg hu
  have hgI : 0 ≤ goldIND i := share_nonneg hg hind
  have hrU : 0 ≤ reitsUSA i := share_nonneg hrt hu
  have hrI : 0 ≤ reitsIND i := share_nonneg hrt hind
  have hcU : 0 ≤ cashUSA i := share_nonneg hc hu
  have hcI : 0 ≤ cashIND i := share_nonneg hc hind
  have hgpair : goldUSA i + goldIND i = (normBase i).gold := share_split i hsum _
  unfold rows
  simp only [sumPct_append, sumPct_ite, sumPct_usaEquity, sumPct_indEquity]
  simp only [sumPct, List.map_cons, List.map_nil, List.sum_cons, List.sum_nil,
    rowFixedUSA, rowFixedIND, rowGoldUSA, rowGoldIND, rowReitsUSA, rowReitsIND,
    rowCashUSA, rowCashIND, rowCrypto, add_zero]
  rw [ite_pos_self hfU, ite_pos_self hfI, ite_pos_self hgU, ite_pos_self hgI,
    ite_pos_self hrU, ite_pos_self hrI, ite_pos_self hcU, ite_pos_self hcI,
    hgpair, ite_pos_self hg]
  have hcr : (if i.includeCrypto = true ∧ 0 < (normBase i).crypto
      then (normBase i).crypto else 0) = (normBase i).crypto := by
    cases hic : i.includeCrypto
    · have h0 : (normBase i).crypto = 0 := by
        rw [normBase_eq]
        exact crypto_finalBase_of_not_include i hic
      simp [h0]
    · simp only [hic, true_and]
      exact ite_pos_self hk
  rw [hcr]
  have hs100 : sumW (normBase i) = 100 := by rw [normBase_eq]; exact sumW_finalBase i
  have e1 : equityUSA i + equityIND i = (normBase i).equity := share_split i hsum _
  have e2 : fixedUSA i + fixedIND i = (normBase i).fixed := share_split i hsum _
  have e3 : reitsUSA i + reitsIND i = (normBase i).reits := share_split i hsum _
  have e4 : cashUSA i + cashIND i = (normBase i).cash := share_split i hsum _
  unfold sumW at hs100
  unfold equityUSA equityIND at e1
  unfold fixedUSA fixedIND at e2
  unfold reitsUSA reitsIND at e3
  unfold cashUSA cashIND at e4
  unfold equityUSA equityIND fixedUSA fixedIND reitsUSA reitsIND cashUSA cashIND
  linarith

theorem sumPct_cleanedRows_add_tinySum (l : List AllocationRow) :
    sumPct (cleanedRows l) + tinySum l = sumPct l := by
  induction l with
  | nil => simp [sumPct, tinySum, cleanedRows]
  | cons a t ih =>
    by_cases hp : a.pct < 0.4 <;>
      simp [sumPct, tinySum, cleanedRows, List.filter_cons, hp] at ih ⊢ <;>
      linarith

theorem tinySum_nonneg {l : List AllocationRow} (h : ∀ r ∈ l, 0 ≤ r.pct) :
    0 ≤ tinySum l := by
  unfold tinySum
  apply List.sum_nonneg
  intro x hx
  simp only [List.mem_map] at hx
  obtain ⟨r, hr, rfl⟩ := hx
  exact h r (List.mem_filter.mp hr).1

/-- Consolidation preserves the total `pct` when all the rows are
non-negative: the removed slices reappear as the consolidated row, and a zero
removed total means only zero-weight rows were dropped. -/
theorem sumPct_consolidate {l : List AllocationRow} (h : ∀ r ∈ l, 0 ≤ r.pct) :
    sumPct (consolidate l) = sumPct l := by
  unfold consolidate
  split_ifs with ht
  · rw [sumPct_append, ← sumPct_cleanedRows_add_tinySum l]
    simp [sumPct, consolidatedRow]
  · have h0 : tinySum l = 0 := le_antisymm (not_lt.mp ht) (tinySum_nonneg h)
    have h2 := sumPct_cleanedRows_add_tinySum l
    rw [h0, add_zero] at h2
    exact h2

/-- Sorting is a permutation, so it does not change the total `pct`. -/
theorem sumPct_mergeSort (l : List AllocationRow) (le : AllocationRow → AllocationRow → Bool) :
    sumPct (l.mergeSort le) = sumPct l :=
  List.Perm.sum_eq (List.Perm.map _ (List.mergeSort_perm l le))

theorem sumPct_autoAllocate (i : Inputs) (hv : Valid i) : sumPct (autoAllocate i) = 100 := by
  unfold autoAllocate
  rw [sumPct_mergeSort, sumPct_consolidate (rows_pct_nonneg i hv), sumPct_rows i hv]

/-- The default preferences of the app (App.tsx lines 139-149), region split
parsed as the pair (60, 40). -/
def sampleInputs : Inputs :=
  { budget := 25000, horizon := 7, risk := .Moderate, usaPct := 60, indPct := 40,
    includeGold := true, includeCrypto := false, cryptoCapPct := 3 }

/-- An Aggressive profile with crypto included and a tight cap. -/
def cryptoAggressive : Inputs :=
  { sampleInputs with risk := .Aggressive, includeCrypto := true, cryptoCapPct := 1 }

/-- The default preferences with gold excluded as well. -/
def noGoldInputs : Inputs :=
  { sampleInputs with includeGold := false }

/-- An Aggressive profile with a short horizon. -/
def shortAggressive : Inputs :=
  { sampleInputs with horizon := 2, risk := .Aggressive }

/-- A Conservative profile with crypto included. -/
def conservativeCrypto : Inputs :=
  { sampleInputs with risk := .Conservative, includeCrypto := true }

/-- C1: for every valid preferences record (region split a pair of
percentages summing to 100, crypto cap in [0, 10], horizon in [1, 30]), the
`pct` values over all line items returned by `autoAllocate` sum to 100
within an absolute tolerance of 1e-6 (the rational model sums to exactly
100). -/
theorem C1_sum_pct_100 (i : Inputs) (hv : Valid i) :
    |sumPct (autoAllocate i) - 100| ≤ 1 / 1000000 := by
  rw [sumPct_autoAllocate i hv]
  norm_num

theorem C1_sum_pct_100_witness :
    Valid sampleInputs ∧ |sumPct (autoAllocate sampleInputs) - 100| ≤ 1 / 1000000 :=
  ⟨by norm_num [Valid, sampleInputs],
   C1_sum_pct_100 sampleInputs (by norm_num [Valid, sampleInputs])⟩

/-- C2: for every valid preferences record with crypto included, every
returned row with asset class `Crypto` has `pct` at most `cryptoCapPct`. -/
theorem C2_crypto_capped (i : Inputs) (hv : Valid i) (hc : i.includeCrypto = true) :
    ∀ r ∈ autoAllocate i, r.assetClass = "Crypto" → r.pct ≤ i.cryptoCapPct := by
  intro r hr hcls
  rcases mem_consolidate (mem_autoAllocate.mp hr) with ⟨hmem, _⟩ | ⟨_, heq⟩
  · obtain ⟨_, hpct, _⟩ := rows_crypto_facts i r hmem hcls
    rw [hpct, normBase_eq]
    exact crypto_finalBase_le_cap i hc
  · rw [heq] at hcls
    simp [consolidatedRow] at hcls

theorem C2_crypto_capped_witness :
    Valid cryptoAggressive ∧ cryptoAggressive.includeCrypto = true ∧
    (∀ r ∈ autoAllocate cryptoAggressive, r.assetClass = "Crypto" →
      r.pct ≤ cryptoAggressive.cryptoCapPct) :=
  ⟨by norm_num [Valid, cryptoAggressive, sampleInputs], rfl,
   C2_crypto_capped cryptoAggressive (by norm_num [Valid, cryptoAggressive, sampleInputs]) rfl⟩

/-- C3: for every valid preferences record, excluding gold leaves no
`Commodity` row in the output, and excluding crypto leaves no `Crypto`
row. -/
theorem C3_opt_out (i : Inputs) (hv : Valid i) :
    (i.includeGold = false → ∀ r ∈ autoAllocate i, r.assetClass ≠ "Commodity") ∧
    (i.includeCrypto = false → ∀ r ∈ autoAllocate i, r.assetClass ≠ "Crypto") := by
  constructor
  · intro hg r hr hcls
    rcases mem_consolidate (mem_autoAllocate.mp hr) with ⟨hmem, _⟩ | ⟨_, heq⟩
    · have hpos := rows_commodity_facts i r hmem hcls
      rw [normBase_eq, gold_finalBase_of_not_include i hg] at hpos
      exact lt_irrefl 0 hpos
    · rw [heq] at hcls
      simp [consolidatedRow] at hcls
  · intro hc r hr hcls
    rcases mem_consolidate (mem_autoAllocate.mp hr) with ⟨hmem, _⟩ | ⟨_, heq⟩
    · obtain ⟨hinc, _, _⟩ := rows_crypto_facts i r hmem hcls
      rw [hinc] at hc
      exact Bool.noConfusion hc
    · rw [heq] at hcls
      simp [consolidatedRow] at hcls

theorem C3_opt_out_witness :
    Valid noGoldInputs ∧
    (noGoldInputs.includeGold = false →
      ∀ r ∈ autoAllocate noGoldInputs, r.assetClass ≠ "Commodity") ∧
    (noGoldInputs.includeCrypto = false →
      ∀ r ∈ autoAllocate noGoldInputs, r.assetClass ≠ "Crypto") :=
  ⟨by norm_num [Valid, noGoldInputs, sampleInputs],
   (C3_opt_out noGoldInputs (by norm_num [Valid, noGoldInputs, sampleInputs])).1,
   (C3_opt_out noGoldInputs (by norm_num [Valid, noGoldInputs, sampleInputs])).2⟩

/-- C4: for every valid preferences record, every `pct` in the output of
`autoAllocate` is non-negative. -/
theorem C4_pct_nonneg (i : Inputs) (hv : Valid i) :
    ∀ r ∈ autoAllocate i, 0 ≤ r.pct := by
  intro r hr
  rcases mem_consolidate (mem_autoAllocate.mp hr) with ⟨hmem, _⟩ | ⟨hpos, heq⟩
  · exact rows_pct_nonneg i hv r hmem
  · rw [heq]
    exact le_of_lt hpos

theorem C4_pct_nonneg_witness :
    Valid sampleInputs ∧ ∀ r ∈ autoAllocate sampleInputs, 0 ≤ r.pct :=
  ⟨by norm_num [Valid, sampleInputs],
   C4_pct_nonneg sampleInputs (by norm_num [Valid, sampleInputs])⟩

/-- C5: for every valid preferences record, every returned row other than the
synthetic `Consolidated` row has `pct` at least 0.4, the `Consolidated` row
appears at most once, and it appears only when the accumulated total of the
removed slices is strictly positive. -/
theorem C5_consolidation (i : Inputs) (hv : Valid i) :
    (∀ r ∈ autoAllocate i, r.instrument ≠ "Consolidated" → (0.4 : ℚ) ≤ r.pct) ∧
    (autoAllocate i).countP (fun r => r.instrument == "Consolidated") ≤ 1 ∧
    ((∃ r ∈ autoAllocate i, r.instrument = "Consolidated") → 0 < tinySum (rows i)) := by
  refine ⟨?_, ?_, ?_⟩
  · intro r hr hne
    rcases mem_consolidate (mem_autoAllocate.mp hr) with ⟨_, hnlt⟩ | ⟨_, heq⟩
    · exact not_lt.mp hnlt
    · rw [heq] at hne
      simp [consolidatedRow] at hne
  · have hclean : (cleanedRows (rows i)).countP (fun r => r.instrument == "Consolidated") = 0 := by
      rw [List.countP_eq_zero]
      intro a ha
      have hne := rows_instrument_ne i a (List.mem_filter.mp ha).1
      simpa using hne
    unfold autoAllocate
    rw [(List.mergeSort_perm _ _).countP_eq]
    unfold consolidate
    split_ifs
    · rw [List.countP_append, hclean]
      rw [List.countP_singleton]
      split_ifs <;> norm_num
    · rw [hclean]
      norm_num
  · intro hx
    obtain ⟨r, hr, hins⟩ := hx
    rcases mem_consolidate (mem_autoAllocate.mp hr) with ⟨hmem, _⟩ | ⟨hpos, _⟩
    · exact absurd hins (rows_instrument_ne i r hmem)
    · exact hpos

theorem C5_consolidation_witness :
    Valid sampleInputs ∧
    ((∀ r ∈ autoAllocate sampleInputs, r.instrument ≠ "Consolidated" → (0.4 : ℚ) ≤ r.pct) ∧
     (autoAllocate sampleInputs).countP (fun r => r.instrument == "Consolidated") ≤ 1 ∧
     ((∃ r ∈ autoAllocate sampleInputs, r.instrument = "Consolidated") →
       0 < tinySum (rows sampleInputs))) :=
  ⟨by norm_num [Valid, sampleInputs],
   C5_consolidation sampleInputs (by norm_num [Valid, sampleInputs])⟩

/-- C6 counterexample: at the concrete valid input with horizon 2 and the
Aggressive profile, the fixed-income weight after the horizon tilt equals 18
and is not negative — the short-horizon branch adds 10 to fixed income
rather than subtracting from it. -/
theorem C6_fixed_negative_counterexample :
    (horizonTilt shortAggressive.horizon (profiles shortAggressive.risk)).fixed = 18 ∧
    ¬ (horizonTilt shortAggressive.horizon (profiles shortAggressive.risk)).fixed < 0 := by
  norm_num [horizonTilt, profiles, shortAggressive, sampleInputs]

/-- C6 (amended): for every valid preferences record with horizon at most 3
and the Aggressive risk profile, the fixed-income weight after the
horizon-tilt step equals 18 — the short-horizon tilt adds 10 to fixed
income, so the weight is non-negative, never negative. -/
theorem C6_fixed_after_tilt (i : Inputs) (hv : Valid i) (hh : i.horizon ≤ 3)
    (hr : i.risk = Risk.Aggressive) :
    (horizonTilt i.horizon (profiles i.risk)).fixed = 18 ∧
    0 ≤ (horizonTilt i.horizon (profiles i.risk)).fixed := by
  obtain ⟨_, _, _, hh1, _, _, _⟩ := hv
  have hno : ¬ (10 : ℚ) ≤ i.horizon := by linarith
  rw [hr]
  unfold horizonTilt profiles
  rw [if_neg hno, if_pos hh]
  norm_num

theorem C6_fixed_after_tilt_witness :
    Valid shortAggressive ∧ shortAggressive.horizon ≤ 3 ∧
    shortAggressive.risk = Risk.Aggressive ∧
    ((horizonTilt shortAggressive.horizon (profiles shortAggressive.risk)).fixed = 18 ∧
     0 ≤ (horizonTilt shortAggressive.horizon (profiles shortAggressive.risk)).fixed) :=
  ⟨by norm_num [Valid, shortAggressive, sampleInputs],
   by norm_num [shortAggressive, sampleInputs], rfl,
   C6_fixed_after_tilt shortAggressive (by norm_num [Valid, shortAggressive, sampleInputs])
     (by norm_num [shortAggressive, sampleInputs]) rfl⟩

/-- C8: for every preferences record the list returned by `autoAllocate` is
sorted in non-increasing order of `pct`: each row's `pct` is at least the
next row's. -/
theorem C8_sorted_descending (i : Inputs) :
    List.Chain' (fun a b : AllocationRow => b.pct ≤ a.pct) (autoAllocate i) := by
  have hp : List.Pairwise
      (fun a b : AllocationRow => (decide (b.pct ≤ a.pct)) = true)
      ((consolidate (rows i)).mergeSort (fun a b => decide (b.pct ≤ a.pct))) :=
    List.sorted_mergeSort
      (by
        intro a b c h1 h2
        simp only [decide_eq_true_eq] at h1 h2 ⊢
        exact le_trans h2 h1)
      (by
        intro a b
        simpa using le_total b.pct a.pct)
      (consolidate (rows i))
  unfold autoAllocate
  exact (hp.imp (by
    intro a b h
    simpa using h)).chain'

/-- C9: for every valid preferences record, after each adjustment step
(horizon tilt, gold opt-out, crypto opt-out, crypto-cap clamp) the six
category weights still sum to exactly 100, so the normalization divisor is
exactly 100 and a zero-or-negative total weight is unreachable. -/
theorem C9_weight_sum_invariant (i : Inputs) (hv : Valid i) :
    sumW (horizonTilt i.horizon (profiles i.risk)) = 100 ∧
    sumW (goldOptOut i.includeGold (horizonTilt i.horizon (profiles i.risk))) = 100 ∧
    sumW (cryptoOptOut i.includeCrypto
      (goldOptOut i.includeGold (horizonTilt i.horizon (profiles i.risk)))) = 100 ∧
    sumW (finalBase i) = 100 ∧ 0 < sumW (finalBase i) := by
  refine ⟨?_, ?_, ?_, ?_, ?_⟩
  · rw [sumW_horizonTilt, sumW_profiles]
  · rw [sumW_goldOptOut, sumW_horizonTilt, sumW_profiles]
  · rw [sumW_cryptoOptOut, sumW_goldOptOut, sumW_horizonTilt, sumW_profiles]
  · exact sumW_finalBase i
  · rw [sumW_finalBase]
    norm_num

theorem C9_weight_sum_invariant_witness :
    Valid sampleInputs ∧
    (sumW (horizonTilt sampleInputs.horizon (profiles sampleInputs.risk)) = 100 ∧
     sumW (goldOptOut sampleInputs.includeGold
       (horizonTilt sampleInputs.horizon (profiles sampleInputs.risk))) = 100 ∧
     sumW (cryptoOptOut sampleInputs.includeCrypto
       (goldOptOut sampleInputs.includeGold
         (horizonTilt sampleInputs.horizon (profiles sampleInputs.risk)))) = 100 ∧
     sumW (finalBase sampleInputs) = 100 ∧ 0 < sumW (finalBase sampleInputs)) :=
  ⟨by norm_num [Valid, sampleInputs],
   C9_weight_sum_invariant sampleInputs (by norm_num [Valid, sampleInputs])⟩

/-- C10: for every valid preferences record with the Conservative or
Moderate profile, the output contains no `Crypto` row even when crypto is
included: those profiles have zero base crypto weight, and the clamp only
lowers the crypto weight. -/
theorem C10_no_crypto_for_low_risk (i : Inputs) (hv : Valid i)
    (hr : i.risk = Risk.Conservative ∨ i.risk = Risk.Moderate) :
    ∀ r ∈ autoAllocate i, r.assetClass ≠ "Crypto" := by
  obtain ⟨_, _, _, _, _, hcap, _⟩ := hv
  intro r hmem hcls
  rcases mem_consolidate (mem_autoAllocate.mp hmem) with ⟨hm, _⟩ | ⟨_, heq⟩
  · obtain ⟨_, _, hpos⟩ := rows_crypto_facts i r hm hcls
    rw [normBase_eq] at hpos
    have h0 : (finalBase i).crypto = 0 :=
      crypto_finalBase_zero_profile i hcap (by rcases hr with h | h <;> rw [h] <;> rfl)
    rw [h0] at hpos
    exact lt_irrefl 0 hpos
  · rw [heq] at hcls
    simp [consolidatedRow] at hcls

theorem C10_no_crypto_for_low_risk_witness :
    Valid conservativeCrypto ∧
    (conservativeCrypto.risk = Risk.Conservative ∨ conservativeCrypto.risk = Risk.Moderate) ∧
    ∀ r ∈ autoAllocate conservativeCrypto, r.assetClass ≠ "Crypto" :=
  ⟨by norm_num [Valid, conservativeCrypto, sampleInputs], Or.inl rfl,
   C10_no_crypto_for_low_risk conservativeCrypto
     (by norm_num [Valid, conservativeCrypto, sampleInputs]) (Or.inl rfl)⟩
